import Mathlib

/-!
Formal model of the secret-sealing core in `src/orchestrator/cpp/crypto.cpp`
(function `encrypt_secret`) together with the parts of libsodium it calls:
the base64 codec (`sodium_base642bin` / `sodium_bin2base64`, original
variant, `ignore = NULL`, `b64_end = NULL`) and the `sealed box`
primitive `crypto_box_seal`, which is external to the repository and is
modelled from the specification.

Byte strings are `List Nat`; C strings are byte lists read up to the first
zero byte; nullable pointers are `Option`; machine arithmetic stays inside
`Nat` because every intermediate value read by the codec fits well below
`2 ^ 32` (the accumulator is consulted only on its low `acc_len + 8 ≤ 21`
bits, so 32-bit wrap-around is unobservable).  The randomness that
`crypto_box_seal` draws internally (the ephemeral secret key) is passed in
as an explicit extra argument `esk`.
-/

/-- Byte size of a Curve25519 public key (`crypto_box_PUBLICKEYBYTES`). -/
def crypto_box_PUBLICKEYBYTES : Nat := 32

/-- Fixed sealed-box overhead (`crypto_box_SEALBYTES` = ephemeral public key
32 bytes + authentication tag 16 bytes). -/
def crypto_box_SEALBYTES : Nat := 48

/-- The `sodium_base64_ENCODED_LEN` macro, transcribed literally: it yields
`4 * ceil(binLen / 3) + 1`, the `+ 1` accounting for a NUL terminator. -/
def sodium_base64_ENCODED_LEN (binLen : Nat) : Nat :=
  binLen / 3 * 4 +
    (((binLen - binLen / 3 * 3) ||| ((binLen - binLen / 3 * 3) >>> 1)) &&& 1) * 4 + 1

/-- C-string view of a byte list: the bytes before the first zero byte
(`strlen` reads exactly this much). -/
def cstr (l : List Nat) : List Nat := l.takeWhile (fun c => c != 0)

/-- C `strlen` on a modelled buffer. -/
def cstrLen (l : List Nat) : Nat := (cstr l).length

/-- Value of a base64 character in the original (standard, padded) alphabet;
255 marks a character outside the alphabet (libsodium
`b64_char_to_byte_original`, written there branchless, same function). -/
def b64_char_to_byte_original (c : Nat) : Nat :=
  if 65 ≤ c ∧ c ≤ 90 then c - 65
  else if 97 ≤ c ∧ c ≤ 122 then c - 97 + 26
  else if 48 ≤ c ∧ c ≤ 57 then c - 48 + 52
  else if c = 43 then 62
  else if c = 47 then 63
  else 255

/-- Main decoding loop of `sodium_base642bin` with `ignore = NULL`.
Returns the final accumulator, the residual bit count, the bytes written,
the unconsumed input from the character that stopped the loop (if any),
and whether the output buffer overflowed (`bin_pos >= bin_maxlen`,
libsodium's ERANGE branch, which breaks with `ret = -1`). -/
def b64MainLoop : Nat → List Nat → Nat → Nat → List Nat →
    Nat × Nat × List Nat × List Nat × Bool
  | _, [], acc, acc_len, bin => (acc, acc_len, bin, [], false)
  | bin_maxlen, c :: rest, acc, acc_len, bin =>
    let d := b64_char_to_byte_original c
    if d = 255 then (acc, acc_len, bin, c :: rest, false)
    else
      let acc2 := (acc <<< 6) + d
      let al2 := acc_len + 6
      if 8 ≤ al2 then
        if bin_maxlen ≤ bin.length then (acc2, al2 - 8, bin, c :: rest, true)
        else b64MainLoop bin_maxlen rest acc2 (al2 - 8)
          (bin ++ [(acc2 >>> (al2 - 8)) &&& 255])
      else b64MainLoop bin_maxlen rest acc2 al2 bin

/-- `sodium_base642bin` with `ignore = NULL` and `b64_end = NULL`, original
variant: after the main loop, fail on buffer overflow, on more than 4
leftover bits, or on nonzero leftover bits; then skip `'='` padding
characters and fail if any input remains.  `none` models the `-1` return;
`some bin` carries the decoded bytes (`*bin_len = bin_pos` in C). -/
def sodium_base642bin (bin_maxlen : Nat) (b64 : List Nat) : Option (List Nat) :=
  match b64MainLoop bin_maxlen b64 0 0 [] with
  | (acc, acc_len, bin, rest, overflow) =>
    if overflow then none
    else if 4 < acc_len then none
    else if acc &&& ((1 <<< acc_len) - 1) ≠ 0 then none
    else if rest.dropWhile (fun c => c == 61) ≠ [] then none
    else some bin

/-- Base64 character for a 6-bit value (libsodium `b64_byte_to_char`). -/
def b64_byte_to_char (x : Nat) : Nat :=
  if x < 26 then 65 + x
  else if x < 52 then 97 + x - 26
  else if x < 62 then 48 + x - 52
  else if x = 62 then 43
  else 47

/-- Character-emission loop of `sodium_bin2base64`.  In the C loop the
inner `while (acc_len >= 6)` runs at most twice because `acc_len ≤ 4`
holds at every iteration head; the two emissions are unrolled here.  After
the input is exhausted the final partial group is flushed. -/
def b64EncLoop : List Nat → Nat → Nat → List Nat
  | [], acc, acc_len =>
    if 0 < acc_len then [b64_byte_to_char ((acc <<< (6 - acc_len)) &&& 63)] else []
  | b :: bs, acc, acc_len =>
    let acc2 := (acc <<< 8) + b
    let n := acc_len + 8
    if 12 ≤ n then
      b64_byte_to_char ((acc2 >>> (n - 6)) &&& 63) ::
        b64_byte_to_char ((acc2 >>> (n - 12)) &&& 63) :: b64EncLoop bs acc2 (n - 12)
    else
      b64_byte_to_char ((acc2 >>> (n - 6)) &&& 63) :: b64EncLoop bs acc2 (n - 6)

/-- `sodium_bin2base64`, original (padded) variant.  The C function aborts
via `sodium_misuse()` when `b64_maxlen <= b64_len` (text length without the
NUL terminator); that unreachable-in-context abort is modelled as `none`.
Otherwise it emits the characters, pads with `'='` up to `b64_len`, and
zero-fills the rest of the buffer up to `b64_maxlen` (the zero-fill is done
at the call site in `encrypt_secret` below, where the buffer lives). -/
def sodium_bin2base64 (b64_maxlen : Nat) (bin : List Nat) : Option (List Nat) :=
  let nibbles := bin.length / 3
  let remainder := bin.length - 3 * nibbles
  let b64_len := nibbles * 4 + (if remainder = 0 then 0 else 4)
  if b64_maxlen ≤ b64_len then none
  else
    let chars := b64EncLoop bin 0 0
    some (chars ++ List.replicate (b64_len - chars.length) 61)

/-- Modelled from the spec: the repository calls libsodium's
`crypto_box_seal`, whose source is not part of this repository.  Following
the spec's description of the anonymous sealed-box construction, the model
generates an ephemeral keypair from the explicit randomness `esk`, derives
a shared secret from the recipient public key by commutative
exponentiation (Diffie-Hellman over the prime field `DH_P`), encrypts the
plaintext with a keystream, authenticates with a 16-byte tag, and prepends
the 32-byte ephemeral public key — a fixed 48-byte overhead.  The prime
modulus is kept small so the model stays kernel-executable. -/
def DH_P : Nat := 251

/-- Modelled from the spec: group generator for the Diffie-Hellman model. -/
def DH_G : Nat := 7

/-- Modelled from the spec: the public key matching a private scalar `sk`. -/
def crypto_box_public_key (sk : Nat) : Nat := DH_G ^ sk % DH_P

/-- Modelled from the spec: deterministic keystream byte `i` under a shared
secret. -/
def keystream (shared i : Nat) : Nat := (shared * 131 + i * 197 + 89) % 256

/-- Modelled from the spec: stream encryption (byte-wise addition mod 256). -/
def streamEnc (shared : Nat) : Nat → List Nat → List Nat
  | _, [] => []
  | i, b :: bs => (b + keystream shared i) % 256 :: streamEnc shared (i + 1) bs

/-- Modelled from the spec: stream decryption, inverse of `streamEnc` on
byte-valued input. -/
def streamDec (shared : Nat) : Nat → List Nat → List Nat
  | _, [] => []
  | i, c :: cs => (c + (256 - keystream shared i)) % 256 :: streamDec shared (i + 1) cs

/-- Modelled from the spec: fold of a byte list used by the tag. -/
def ctFold (ct : List Nat) : Nat :=
  ct.foldl (fun a b => (a * 257 + b + 1) % 65521) 0

/-- Modelled from the spec: 16-byte authentication tag over the encrypted
stream under the shared secret. -/
def macTag (shared : Nat) (ct : List Nat) : List Nat :=
  (List.range 16).map (fun j => (shared * (j + 3) + ctFold ct + j) % 256)

/-- Little-endian byte expansion on a fixed width. -/
def natToBytesLE : Nat → Nat → List Nat
  | 0, _ => []
  | k + 1, x => x % 256 :: natToBytesLE k (x / 256)

/-- Little-endian byte composition, inverse of `natToBytesLE` on small
values. -/
def natOfBytesLE : List Nat → Nat
  | [] => 0
  | b :: bs => b + 256 * natOfBytesLE bs

/-- Modelled from the spec: `crypto_box_seal`.  The 32 key bytes are read
as a group element; the primitive fails (returns `-1` in C, `none` here)
exactly when the derived shared secret degenerates to zero, which is how
libsodium rejects low-order / all-zero public keys. -/
def crypto_box_seal (pk_bytes m : List Nat) (esk : Nat) : Option (List Nat) :=
  let pk := natOfBytesLE pk_bytes % DH_P
  let shared := pk ^ esk % DH_P
  if shared = 0 then none
  else
    let epk := DH_G ^ esk % DH_P
    let enc := streamEnc shared 0 m
    some (natToBytesLE 32 epk ++ macTag shared enc ++ enc)

/-- Modelled from the spec: the reference `crypto_box_seal_open` used by
the round-trip property — parse ephemeral public key, tag and stream,
re-derive the shared secret from the recipient private key, check the tag,
decrypt. -/
def crypto_box_seal_open (c : List Nat) (sk : Nat) : Option (List Nat) :=
  if c.length < crypto_box_SEALBYTES then none
  else
    let epk := natOfBytesLE (c.take 32) % DH_P
    let shared := epk ^ sk % DH_P
    let tag := (c.drop 32).take 16
    let enc := c.drop 48
    if shared = 0 then none
    else if tag = macTag shared enc then some (streamDec shared 0 enc)
    else none

/-- Observable result of one `encrypt_secret` call: the returned status,
the final contents of the caller's output buffer (`none` when the caller
passed a null pointer) and the final value behind `output_len`. -/
structure CallResult where
  ret : Int
  output : Option (List Nat)
  output_len : Option Nat
deriving DecidableEq

/-- The `encrypt_secret` function of `src/orchestrator/cpp/crypto.cpp`,
transcribed stage by stage.  `esk` is the randomness consumed by the
sealing primitive.  The decoded key is used as the 32-byte vector the C
code allocates: the decoder fills a prefix and the value-initialised tail
stays zero — the C code never consults `decoded_len`.  On success,
`sodium_bin2base64` writes text + `'='` padding, zero-fills the buffer up
to the declared capacity, and `*output_len = strlen(output)`. -/
def encrypt_secret (public_key_b64 plaintext output : Option (List Nat))
    (output_len : Option Nat) (esk : Nat) : CallResult :=
  match public_key_b64, plaintext, output, output_len with
  | some pkb, some pt, some outBuf, some cap =>
    match sodium_base642bin crypto_box_PUBLICKEYBYTES (cstr pkb) with
    | none => ⟨-2, some outBuf, some cap⟩
    | some decoded =>
      let public_key := decoded ++ List.replicate (crypto_box_PUBLICKEYBYTES - decoded.length) 0
      let ptBytes := cstr pt
      let ciphertext_len := crypto_box_SEALBYTES + ptBytes.length
      match crypto_box_seal public_key ptBytes esk with
      | none => ⟨-3, some outBuf, some cap⟩
      | some ciphertext =>
        let b64_len := sodium_base64_ENCODED_LEN ciphertext_len
        if cap < b64_len then ⟨-4, some outBuf, some b64_len⟩
        else
          match sodium_bin2base64 cap ciphertext with
          | none => ⟨-5, some outBuf, some cap⟩
          | some text =>
            let newBuf := text ++ List.replicate (cap - text.length) 0 ++ outBuf.drop cap
            ⟨0, some newBuf, some (cstrLen newBuf)⟩
  | _, _, _, _ => ⟨-1, output, output_len⟩

/-! ### Arithmetic facts about the codec -/

lemma sodium_base64_ENCODED_LEN_eq (n : Nat) :
    sodium_base64_ENCODED_LEN n = n / 3 * 4 + (if n % 3 = 0 then 0 else 4) + 1 := by
  unfold sodium_base64_ENCODED_LEN
  have h : n - n / 3 * 3 = n % 3 := by omega
  rw [h]
  have h3 : n % 3 = 0 ∨ n % 3 = 1 ∨ n % 3 = 2 := by omega
  have e0 : ((0 : Nat) ||| 0 >>> 1) &&& 1 = 0 := rfl
  have e1 : ((1 : Nat) ||| 1 >>> 1) &&& 1 = 1 := rfl
  have e2 : ((2 : Nat) ||| 2 >>> 1) &&& 1 = 1 := rfl
  rcases h3 with h3 | h3 | h3 <;> rw [h3] <;> simp [e0, e1, e2]

lemma sodium_base64_ENCODED_LEN_val (n : Nat) :
    sodium_base64_ENCODED_LEN n = 4 * ((n + 2) / 3) + 1 := by
  rw [sodium_base64_ENCODED_LEN_eq]
  by_cases h3 : n % 3 = 0 <;> simp [h3] <;> omega

lemma sodium_base64_ENCODED_LEN_pos (n : Nat) : 0 < sodium_base64_ENCODED_LEN n := by
  rw [sodium_base64_ENCODED_LEN_val]; omega

lemma b64EncLoop_length (bs : List Nat) : ∀ acc al, al = 0 ∨ al = 2 ∨ al = 4 →
    (b64EncLoop bs acc al).length = (al + 8 * bs.length + 5) / 6 := by
  induction bs with
  | nil =>
    intro acc al h
    rcases h with h | h | h <;> subst h <;> simp [b64EncLoop]
  | cons b bs ih =>
    intro acc al h
    rcases h with h | h | h <;> subst h <;>
      simp only [b64EncLoop, List.length_cons] <;> norm_num <;>
      rw [ih _ _ (by omega)] <;> omega

lemma b64_byte_to_char_pos (x : Nat) : 0 < b64_byte_to_char x := by
  unfold b64_byte_to_char
  split_ifs <;> omega

lemma b64EncLoop_pos (bs : List Nat) : ∀ acc al c, c ∈ b64EncLoop bs acc al → 0 < c := by
  induction bs with
  | nil =>
    intro acc al c hc
    unfold b64EncLoop at hc
    split at hc
    · rcases List.mem_singleton.mp hc with rfl
      exact b64_byte_to_char_pos _
    · exact absurd hc (List.not_mem_nil c)
  | cons b bs ih =>
    intro acc al c hc
    simp only [b64EncLoop] at hc
    split at hc <;> simp only [List.mem_cons] at hc
    · rcases hc with rfl | rfl | hc
      · exact b64_byte_to_char_pos _
      · exact b64_byte_to_char_pos _
      · exact ih _ _ _ hc
    · rcases hc with rfl | hc
      · exact b64_byte_to_char_pos _
      · exact ih _ _ _ hc

lemma sodium_bin2base64_spec (maxlen : Nat) (bin : List Nat)
    (h : 4 * ((bin.length + 2) / 3) < maxlen) :
    ∃ text, sodium_bin2base64 maxlen bin = some text
      ∧ text.length = 4 * ((bin.length + 2) / 3)
      ∧ ∀ c ∈ text, c ≠ 0 := by
  have hb : bin.length / 3 * 4 + (if bin.length - 3 * (bin.length / 3) = 0 then 0 else 4)
      = 4 * ((bin.length + 2) / 3) := by
    by_cases h3 : bin.length % 3 = 0
    · rw [if_pos (by omega)]; omega
    · rw [if_neg (by omega)]; omega
  have hchars : (b64EncLoop bin 0 0).length = (8 * bin.length + 5) / 6 := by
    simpa using b64EncLoop_length bin 0 0 (Or.inl rfl)
  refine ⟨b64EncLoop bin 0 0 ++
    List.replicate (4 * ((bin.length + 2) / 3) - (b64EncLoop bin 0 0).length) 61, ?_, ?_, ?_⟩
  · unfold sodium_bin2base64
    simp only [hb]
    rw [if_neg (by omega)]
  · rw [List.length_append, List.length_replicate, hchars]; omega
  · intro c hc
    rcases List.mem_append.mp hc with hc | hc
    · have := b64EncLoop_pos bin 0 0 c hc; omega
    · have := List.eq_of_mem_replicate hc; omega

/-! ### C-string facts -/

lemma cstr_append_zero (l r : List Nat) (h : ∀ c ∈ l, c ≠ 0) :
    cstr (l ++ 0 :: r) = l := by
  induction l with
  | nil => simp [cstr]
  | cons a l ih =>
    have ha : (a != 0) = true := by
      have := h a (List.mem_cons_self a l)
      simpa using this
    simp only [cstr, List.cons_append, List.takeWhile_cons, ha, if_true]
    have := ih (fun c hc => h c (List.mem_cons_of_mem a hc))
    simpa [cstr] using this

lemma cstrLen_written (text tail2 : List Nat) (k : Nat) (hk : 0 < k)
    (h : ∀ c ∈ text, c ≠ 0) :
    cstrLen (text ++ List.replicate k 0 ++ tail2) = text.length := by
  obtain ⟨m, rfl⟩ : ∃ m, k = m + 1 := ⟨k - 1, by omega⟩
  rw [List.replicate_succ]
  have : text ++ (0 :: List.replicate m 0) ++ tail2 = text ++ 0 :: (List.replicate m 0 ++ tail2) := by
    simp
  rw [this, cstrLen, cstr_append_zero _ _ h]

/-! ### Lengths of the modelled sealed box -/

lemma natToBytesLE_length : ∀ k x, (natToBytesLE k x).length = k := by
  intro k
  induction k with
  | zero => intro x; rfl
  | succ k ih => intro x; simp [natToBytesLE, ih]

lemma streamEnc_length (sh : Nat) : ∀ i m, (streamEnc sh i m).length = List.length m := by
  intro i m
  induction m generalizing i with
  | nil => rfl
  | cons b bs ih => simp [streamEnc, ih]

lemma macTag_length (sh : Nat) (ct : List Nat) : (macTag sh ct).length = 16 := by
  simp [macTag]

lemma crypto_box_seal_length (pk m : List Nat) (esk : Nat) (ct : List Nat)
    (h : crypto_box_seal pk m esk = some ct) :
    ct.length = crypto_box_SEALBYTES + m.length := by
  simp only [crypto_box_seal] at h
  split at h
  · exact absurd h (by simp)
  · simp only [Option.some.injEq] at h
    subst h
    simp [natToBytesLE_length, macTag_length, streamEnc_length, crypto_box_SEALBYTES]
    omega

/-! ### Branch equations of `encrypt_secret` -/

lemma encrypt_secret_null (pk pt o : Option (List Nat)) (l : Option Nat) (esk : Nat)
    (h : pk = none ∨ pt = none ∨ o = none ∨ l = none) :
    encrypt_secret pk pt o l esk = ⟨-1, o, l⟩ := by
  rcases pk with _ | pkb <;> rcases pt with _ | ptb <;>
    rcases o with _ | ob <;> rcases l with _ | cap <;> try rfl
  rcases h with h | h | h | h <;> exact absurd h (by simp)

lemma encrypt_secret_neg2 (pkb pt ob : List Nat) (cap esk : Nat)
    (h : sodium_base642bin crypto_box_PUBLICKEYBYTES (cstr pkb) = none) :
    encrypt_secret (some pkb) (some pt) (some ob) (some cap) esk = ⟨-2, some ob, some cap⟩ := by
  simp only [encrypt_secret, h]

lemma encrypt_secret_neg3 (pkb pt ob : List Nat) (cap esk : Nat) (d : List Nat)
    (hd : sodium_base642bin crypto_box_PUBLICKEYBYTES (cstr pkb) = some d)
    (hs : crypto_box_seal (d ++ List.replicate (crypto_box_PUBLICKEYBYTES - d.length) 0)
        (cstr pt) esk = none) :
    encrypt_secret (some pkb) (some pt) (some ob) (some cap) esk = ⟨-3, some ob, some cap⟩ := by
  simp only [encrypt_secret, hd, hs]

lemma encrypt_secret_neg4 (pkb pt ob : List Nat) (cap esk : Nat) (d ct : List Nat)
    (hd : sodium_base642bin crypto_box_PUBLICKEYBYTES (cstr pkb) = some d)
    (hs : crypto_box_seal (d ++ List.replicate (crypto_box_PUBLICKEYBYTES - d.length) 0)
        (cstr pt) esk = some ct)
    (hcap : cap < sodium_base64_ENCODED_LEN (crypto_box_SEALBYTES + (cstr pt).length)) :
    encrypt_secret (some pkb) (some pt) (some ob) (some cap) esk =
      ⟨-4, some ob, some (sodium_base64_ENCODED_LEN (crypto_box_SEALBYTES + (cstr pt).length))⟩ := by
  simp only [encrypt_secret, hd, hs, if_pos hcap]

lemma encrypt_secret_success (pkb pt ob : List Nat) (cap esk : Nat) (d ct : List Nat)
    (hd : sodium_base642bin crypto_box_PUBLICKEYBYTES (cstr pkb) = some d)
    (hs : crypto_box_seal (d ++ List.replicate (crypto_box_PUBLICKEYBYTES - d.length) 0)
        (cstr pt) esk = some ct)
    (hcap : sodium_base64_ENCODED_LEN (crypto_box_SEALBYTES + (cstr pt).length) ≤ cap) :
    ∃ text, sodium_bin2base64 cap ct = some text
      ∧ text.length = 4 * ((ct.length + 2) / 3)
      ∧ text.length + 1 = sodium_base64_ENCODED_LEN ct.length
      ∧ (∀ c ∈ text, c ≠ 0)
      ∧ encrypt_secret (some pkb) (some pt) (some ob) (some cap) esk =
          ⟨0, some (text ++ List.replicate (cap - text.length) 0 ++ ob.drop cap),
            some text.length⟩ := by
  have hctlen : ct.length = crypto_box_SEALBYTES + (cstr pt).length :=
    crypto_box_seal_length _ _ _ _ hs
  have henc : sodium_base64_ENCODED_LEN ct.length = 4 * ((ct.length + 2) / 3) + 1 :=
    sodium_base64_ENCODED_LEN_val _
  have hlt : 4 * ((ct.length + 2) / 3) < cap := by
    rw [← hctlen] at hcap
    omega
  obtain ⟨text, htext, hlen, hnz⟩ := sodium_bin2base64_spec cap ct hlt
  refine ⟨text, htext, hlen, by omega, hnz, ?_⟩
  have hnotlt : ¬ cap < sodium_base64_ENCODED_LEN (crypto_box_SEALBYTES + (cstr pt).length) := by
    omega
  simp only [encrypt_secret, hd, hs, if_neg hnotlt, htext]
  have hfill : 0 < cap - text.length := by
    rw [← hctlen] at hcap
    omega
  rw [cstrLen_written text (ob.drop cap) (cap - text.length) hfill hnz]

/-! ### Round-trip facts for the modelled sealed box -/

lemma natToBytesLE_zero : ∀ k, natToBytesLE k 0 = List.replicate k 0 := by
  intro k
  induction k with
  | zero => rfl
  | succ k ih => simp [natToBytesLE, ih, List.replicate_succ]

lemma natOfBytesLE_replicate_zero : ∀ k, natOfBytesLE (List.replicate k 0) = 0 := by
  intro k
  induction k with
  | zero => rfl
  | succ k ih => simp [List.replicate_succ, natOfBytesLE, ih]

lemma natOfBytesLE_small (k x : Nat) (hx : x < 256) (hk : 0 < k) :
    natOfBytesLE (natToBytesLE k x) = x := by
  obtain ⟨j, rfl⟩ : ∃ j, k = j + 1 := ⟨k - 1, by omega⟩
  simp only [natToBytesLE, Nat.mod_eq_of_lt hx, Nat.div_eq_of_lt hx, natToBytesLE_zero,
    natOfBytesLE, natOfBytesLE_replicate_zero]
  omega

lemma keystream_lt (sh i : Nat) : keystream sh i < 256 := by
  unfold keystream
  exact Nat.mod_lt _ (by norm_num)

lemma streamDec_streamEnc (sh : Nat) : ∀ (m : List Nat) (i : Nat), (∀ b ∈ m, b < 256) →
    streamDec sh i (streamEnc sh i m) = m := by
  intro m
  induction m with
  | nil => intro i _; rfl
  | cons b bs ih =>
    intro i hm
    have hb : b < 256 := hm b (List.mem_cons_self b bs)
    have hk := keystream_lt sh i
    simp only [streamEnc, streamDec, List.cons.injEq]
    constructor
    · omega
    · exact ih (i + 1) (fun c hc => hm c (List.mem_cons_of_mem b hc))

lemma pow7_mod251_ne_zero (n : Nat) : 7 ^ n % 251 ≠ 0 := by
  intro h
  have hdvd : (251 : Nat) ∣ 7 ^ n := Nat.dvd_of_mod_eq_zero h
  have hp : Nat.Prime 251 := by norm_num
  have := hp.dvd_of_dvd_pow hdvd
  norm_num at this

lemma dh_comm (a b : Nat) :
    (DH_G ^ a % DH_P) ^ b % DH_P = (DH_G ^ b % DH_P) ^ a % DH_P := by
  conv_lhs => rw [← Nat.pow_mod, ← pow_mul]
  conv_rhs => rw [← Nat.pow_mod, ← pow_mul]
  rw [Nat.mul_comm]

lemma take_len_append {α : Type} (l1 l2 : List α) : (l1 ++ l2).take l1.length = l1 := by
  rw [List.take_append_eq_append_take, List.take_of_length_le (Nat.le_refl _), Nat.sub_self]
  simp

lemma drop_len_append {α : Type} (l1 l2 : List α) : (l1 ++ l2).drop l1.length = l2 := by
  rw [List.drop_append_eq_append_drop, List.drop_eq_nil_of_le (Nat.le_refl _), Nat.sub_self]
  simp

lemma crypto_box_seal_eval (sk esk : Nat) (m : List Nat) :
    crypto_box_seal (natToBytesLE 32 (crypto_box_public_key sk)) m esk =
      some (natToBytesLE 32 (DH_G ^ esk % DH_P) ++
        macTag (crypto_box_public_key sk ^ esk % DH_P)
          (streamEnc (crypto_box_public_key sk ^ esk % DH_P) 0 m) ++
        streamEnc (crypto_box_public_key sk ^ esk % DH_P) 0 m) := by
  have hP : (0 : Nat) < DH_P := by norm_num [DH_P]
  have hlt : crypto_box_public_key sk < 256 := by
    have h := Nat.mod_lt (DH_G ^ sk) hP
    unfold crypto_box_public_key
    unfold DH_P at h ⊢
    omega
  have hof : natOfBytesLE (natToBytesLE 32 (crypto_box_public_key sk)) = crypto_box_public_key sk :=
    natOfBytesLE_small 32 _ hlt (by norm_num)
  have hmod : crypto_box_public_key sk % DH_P = crypto_box_public_key sk := by
    apply Nat.mod_eq_of_lt
    unfold crypto_box_public_key
    exact Nat.mod_lt _ hP
  have hnz : ¬ (crypto_box_public_key sk ^ esk % DH_P = 0) := by
    unfold crypto_box_public_key DH_G DH_P
    rw [← Nat.pow_mod, ← pow_mul]
    exact pow7_mod251_ne_zero _
  simp only [crypto_box_seal, hof, hmod, if_neg hnz]

lemma take_append_len {α : Type} (l1 l2 : List α) (n : Nat) (h : l1.length = n) :
    (l1 ++ l2).take n = l1 := by
  subst h
  exact take_len_append l1 l2

lemma drop_append_len {α : Type} (l1 l2 : List α) (n : Nat) (h : l1.length = n) :
    (l1 ++ l2).drop n = l2 := by
  subst h
  exact drop_len_append l1 l2

lemma crypto_box_open_seal (sk esk : Nat) (m : List Nat) (hm : ∀ b ∈ m, b < 256) (c : List Nat)
    (hc : crypto_box_seal (natToBytesLE 32 (crypto_box_public_key sk)) m esk = some c) :
    crypto_box_seal_open c sk = some m := by
  rw [crypto_box_seal_eval] at hc
  have hc2 := Option.some.inj hc
  subst hc2
  have hP : (0 : Nat) < DH_P := by norm_num [DH_P]
  have hepk_lt : DH_G ^ esk % DH_P < 256 := by
    have h := Nat.mod_lt (DH_G ^ esk) hP
    unfold DH_P at h ⊢
    omega
  have hA : (natToBytesLE 32 (DH_G ^ esk % DH_P)).length = 32 := natToBytesLE_length _ _
  have hB : (macTag (crypto_box_public_key sk ^ esk % DH_P)
      (streamEnc (crypto_box_public_key sk ^ esk % DH_P) 0 m)).length = 16 := macTag_length _ _
  have hE : (streamEnc (crypto_box_public_key sk ^ esk % DH_P) 0 m).length = m.length :=
    streamEnc_length _ _ _
  have hlen : (natToBytesLE 32 (DH_G ^ esk % DH_P) ++
      macTag (crypto_box_public_key sk ^ esk % DH_P)
        (streamEnc (crypto_box_public_key sk ^ esk % DH_P) 0 m) ++
      streamEnc (crypto_box_public_key sk ^ esk % DH_P) 0 m).length = 48 + m.length := by
    simp only [List.length_append, hA, hB, hE]
  have h48 : (natToBytesLE 32 (DH_G ^ esk % DH_P) ++
      macTag (crypto_box_public_key sk ^ esk % DH_P)
        (streamEnc (crypto_box_public_key sk ^ esk % DH_P) 0 m)).length = 48 := by
    simp only [List.length_append, hA, hB]
  have h1 : ¬ ((natToBytesLE 32 (DH_G ^ esk % DH_P) ++
      macTag (crypto_box_public_key sk ^ esk % DH_P)
        (streamEnc (crypto_box_public_key sk ^ esk % DH_P) 0 m) ++
      streamEnc (crypto_box_public_key sk ^ esk % DH_P) 0 m).length < 48) := by
    rw [hlen]
    omega
  have hepk_of : natOfBytesLE (natToBytesLE 32 (DH_G ^ esk % DH_P)) = DH_G ^ esk % DH_P :=
    natOfBytesLE_small 32 _ hepk_lt (by norm_num)
  have hepk_mod : (DH_G ^ esk % DH_P) % DH_P = DH_G ^ esk % DH_P :=
    Nat.mod_eq_of_lt (Nat.mod_lt _ hP)
  have hsh_eq : (DH_G ^ esk % DH_P) ^ sk % DH_P = crypto_box_public_key sk ^ esk % DH_P := by
    unfold crypto_box_public_key
    exact (dh_comm sk esk).symm
  have hnz3 : ¬ (crypto_box_public_key sk ^ esk % DH_P = 0) := by
    unfold crypto_box_public_key DH_G DH_P
    rw [← Nat.pow_mod, ← pow_mul]
    exact pow7_mod251_ne_zero _
  simp only [crypto_box_seal_open, crypto_box_SEALBYTES]
  rw [if_neg h1]
  rw [List.append_assoc, take_append_len _ _ 32 hA, drop_append_len _ _ 32 hA]
  rw [← List.append_assoc, drop_append_len _ _ 48 h48]
  rw [take_append_len _ _ 16 hB]
  rw [hepk_of, hepk_mod, hsh_eq]
  rw [if_neg hnz3]
  rw [if_pos rfl]
  rw [streamDec_streamEnc _ m 0 hm]

/-! ### Test vectors -/

/-- Test public key of the spec's end-to-end scenario,
the ASCII bytes of the base64 text `Zm9vYmFyZm9vYmFyZm9vYmFyZm9vYmFyZm9vYmFyMDA=`
(decodes to exactly 32 bytes). -/
def tKey : List Nat :=
  [90, 109, 57, 118, 89, 109, 70, 121, 90, 109, 57, 118, 89, 109, 70, 121,
   90, 109, 57, 118, 89, 109, 70, 121, 90, 109, 57, 118, 89, 109, 70, 121,
   90, 109, 57, 118, 89, 109, 70, 121, 77, 68, 65, 61]

/-- ASCII bytes of the base64 text `Zm9v`, which decodes to only 3 bytes —
far short of the 32 required for a public key. -/
def tKeyShort : List Nat := [90, 109, 57, 118]

/-! ### Claims -/

/-- Claim C1: the claim asserts that any base64 key whose decoded length
differs from 32 is rejected with `InvalidKeyEncoding` (-2).  The code
violates this for shorter keys: it requests `decoded_len` from
`sodium_base642bin` but never reads it, so a 4-character base64 string
decoding to 3 bytes is accepted, the key is silently zero-padded to 32
bytes, and sealing proceeds to `Success` (0) instead of failing with -2. -/
theorem C1_short_key_accepted :
    sodium_base642bin crypto_box_PUBLICKEYBYTES (cstr tKeyShort) = some [102, 111, 111]
    ∧ ([102, 111, 111] : List Nat).length ≠ crypto_box_PUBLICKEYBYTES
    ∧ (encrypt_secret (some tKeyShort) (some [120]) (some []) (some 100) 1).ret = 0 := by
  refine ⟨by decide, by decide, by decide⟩

/-- Claim C2: for every plaintext of bytes and every valid recipient
keypair `(pk, sk)` with `pk = crypto_box_public_key sk`, opening the
ciphertext produced by the sealing primitive with the matching private key
(reference `crypto_box_seal_open`) yields exactly the plaintext. -/
theorem C2_seal_open_roundtrip (sk esk : Nat) (m : List Nat) (hm : ∀ b ∈ m, b < 256) :
    (crypto_box_seal (natToBytesLE 32 (crypto_box_public_key sk)) m esk).bind
      (fun c => crypto_box_seal_open c sk) = some m := by
  rw [crypto_box_seal_eval sk esk m]
  exact crypto_box_open_seal sk esk m hm _ (crypto_box_seal_eval sk esk m)

/-- Witness for C2 at a concrete keypair, randomness and plaintext. -/
theorem C2_seal_open_roundtrip_witness :
    (crypto_box_seal (natToBytesLE 32 (crypto_box_public_key 2)) [104, 105] 3).bind
      (fun c => crypto_box_seal_open c 2) = some [104, 105] :=
  C2_seal_open_roundtrip 2 3 [104, 105] (by decide)

/-- Claim C4 counterexample: the claim says an empty plaintext string is
rejected with `InvalidArgument` (-1).  The code checks only for null
pointers, so a call with the valid test key and an empty (but non-null)
plaintext seals the empty message and returns `Success` (0), not -1. -/
theorem C4_empty_plaintext_counterexample :
    (encrypt_secret (some tKey) (some []) (some []) (some 100) 1).ret = 0
    ∧ (encrypt_secret (some tKey) (some []) (some []) (some 100) 1).ret ≠ -1 := by
  refine ⟨by decide, by decide⟩

/-- Claim C4 (amended): calling seal with a null key, plaintext, output or
capacity pointer returns `InvalidArgument` (-1) before the decoder or the
sealing primitive is consulted (the result does not depend on any of the
other arguments) and with no other observable effect; an empty plaintext
string is not rejected. -/
theorem C4_null_args_only (pk pt o : Option (List Nat)) (l : Option Nat) (esk : Nat)
    (h : pk = none ∨ pt = none ∨ o = none ∨ l = none) :
    encrypt_secret pk pt o l esk = ⟨-1, o, l⟩ :=
  encrypt_secret_null pk pt o l esk h

/-- Witness for the amended C4 at a concrete null key pointer. -/
theorem C4_null_args_only_witness :
    encrypt_secret none (some [104]) (some []) (some 7) 0 = ⟨-1, some [], some 7⟩ :=
  C4_null_args_only none (some [104]) (some []) (some 7) 0 (Or.inl rfl)

/-- Claim C9: the code reads the plaintext with `strlen`, so only the bytes
before the first zero byte influence the call: two plaintext buffers with
the same prefix before the first zero byte give identical results, for any
key, buffer, capacity and randomness. -/
theorem C9_nul_truncation (pkb ptA ptB ob : List Nat) (cap esk : Nat)
    (h : cstr ptA = cstr ptB) :
    encrypt_secret (some pkb) (some ptA) (some ob) (some cap) esk
      = encrypt_secret (some pkb) (some ptB) (some ob) (some cap) esk := by
  simp only [encrypt_secret, h]

/-- Witness for C9: a plaintext with an embedded zero byte seals exactly
like its truncation at that zero byte. -/
theorem C9_nul_truncation_witness :
    encrypt_secret (some tKey) (some [104, 0, 99]) (some []) (some 100) 1
      = encrypt_secret (some tKey) (some [104]) (some []) (some 100) 1 :=
  C9_nul_truncation tKey [104, 0, 99] [104] [] 100 1 (by decide)

/-- Claim C3: with a key that decodes and a plaintext the primitive seals,
calling with capacity 0 returns `BufferTooSmall` (-4), leaves the output
buffer untouched, and overwrites the capacity with the exact required
length; calling again with exactly that reported capacity succeeds. -/
theorem C3_buffer_negotiation (pkb pt ob : List Nat) (esk : Nat) (d ct : List Nat)
    (hd : sodium_base642bin crypto_box_PUBLICKEYBYTES (cstr pkb) = some d)
    (hs : crypto_box_seal (d ++ List.replicate (crypto_box_PUBLICKEYBYTES - d.length) 0)
        (cstr pt) esk = some ct) :
    (encrypt_secret (some pkb) (some pt) (some ob) (some 0) esk).ret = -4
    ∧ (encrypt_secret (some pkb) (some pt) (some ob) (some 0) esk).output = some ob
    ∧ (encrypt_secret (some pkb) (some pt) (some ob) (some 0) esk).output_len
        = some (sodium_base64_ENCODED_LEN (crypto_box_SEALBYTES + (cstr pt).length))
    ∧ (encrypt_secret (some pkb) (some pt) (some ob)
        (some (sodium_base64_ENCODED_LEN (crypto_box_SEALBYTES + (cstr pt).length))) esk).ret
        = 0 := by
  have hpos := sodium_base64_ENCODED_LEN_pos (crypto_box_SEALBYTES + (cstr pt).length)
  have h4 := encrypt_secret_neg4 pkb pt ob 0 esk d ct hd hs hpos
  obtain ⟨text, htext, hlen2, henc1, hnz, hsucc⟩ :=
    encrypt_secret_success pkb pt ob _ esk d ct hd hs (Nat.le_refl _)
  exact ⟨by rw [h4], by rw [h4], by rw [h4], by rw [hsucc]⟩

/-- Witness for C3 at the spec's test key and plaintext `hello`. -/
theorem C3_buffer_negotiation_witness :
    (encrypt_secret (some tKey) (some [104, 101, 108, 108, 111]) (some []) (some 0) 3).ret = -4
    ∧ (encrypt_secret (some tKey) (some [104, 101, 108, 108, 111]) (some []) (some 0) 3).output
        = some []
    ∧ (encrypt_secret (some tKey) (some [104, 101, 108, 108, 111]) (some []) (some 0) 3).output_len
        = some (sodium_base64_ENCODED_LEN (crypto_box_SEALBYTES +
            (cstr [104, 101, 108, 108, 111]).length))
    ∧ (encrypt_secret (some tKey) (some [104, 101, 108, 108, 111]) (some [])
        (some (sodium_base64_ENCODED_LEN (crypto_box_SEALBYTES +
            (cstr [104, 101, 108, 108, 111]).length))) 3).ret = 0 :=
  C3_buffer_negotiation tKey [104, 101, 108, 108, 111] [] 3
    ((sodium_base642bin crypto_box_PUBLICKEYBYTES (cstr tKey)).getD [])
    ((crypto_box_seal
        ((sodium_base642bin crypto_box_PUBLICKEYBYTES (cstr tKey)).getD [] ++
          List.replicate (crypto_box_PUBLICKEYBYTES -
            ((sodium_base642bin crypto_box_PUBLICKEYBYTES (cstr tKey)).getD []).length) 0)
        (cstr [104, 101, 108, 108, 111]) 3).getD [])
    (by decide) (by decide)

/-- Claim C5: every call that returns a status other than `Success` leaves
the caller's output buffer exactly as it was, and every failure other than
`BufferTooSmall` (-4) also leaves the capacity value unchanged. -/
theorem C5_failure_frame (pk pt o : Option (List Nat)) (l : Option Nat) (esk : Nat)
    (h : (encrypt_secret pk pt o l esk).ret ≠ 0) :
    (encrypt_secret pk pt o l esk).output = o
    ∧ ((encrypt_secret pk pt o l esk).ret ≠ -4 →
        (encrypt_secret pk pt o l esk).output_len = l) := by
  rcases pk with _ | pkb
  · rw [encrypt_secret_null none pt o l esk (Or.inl rfl)]
    exact ⟨rfl, fun _ => rfl⟩
  rcases pt with _ | ptb
  · rw [encrypt_secret_null (some pkb) none o l esk (Or.inr (Or.inl rfl))]
    exact ⟨rfl, fun _ => rfl⟩
  rcases o with _ | ob
  · rw [encrypt_secret_null (some pkb) (some ptb) none l esk (Or.inr (Or.inr (Or.inl rfl)))]
    exact ⟨rfl, fun _ => rfl⟩
  rcases l with _ | cap
  · rw [encrypt_secret_null (some pkb) (some ptb) (some ob) none esk
      (Or.inr (Or.inr (Or.inr rfl)))]
    exact ⟨rfl, fun _ => rfl⟩
  rcases hdec : sodium_base642bin crypto_box_PUBLICKEYBYTES (cstr pkb) with _ | d
  · rw [encrypt_secret_neg2 pkb ptb ob cap esk hdec]
    exact ⟨rfl, fun _ => rfl⟩
  rcases hseal : crypto_box_seal (d ++ List.replicate (crypto_box_PUBLICKEYBYTES - d.length) 0)
      (cstr ptb) esk with _ | ct
  · rw [encrypt_secret_neg3 pkb ptb ob cap esk d hdec hseal]
    exact ⟨rfl, fun _ => rfl⟩
  by_cases hcap : cap < sodium_base64_ENCODED_LEN (crypto_box_SEALBYTES + (cstr ptb).length)
  · rw [encrypt_secret_neg4 pkb ptb ob cap esk d ct hdec hseal hcap]
    exact ⟨rfl, fun hne => absurd rfl hne⟩
  · obtain ⟨text, _, _, _, _, hsucc⟩ := encrypt_secret_success pkb ptb ob cap esk d ct hdec hseal
      (by omega)
    rw [hsucc] at h
    exact absurd rfl h

/-- Witness for C5 at a concrete failing call (invalid base64 character in
the key, status -2). -/
theorem C5_failure_frame_witness :
    (encrypt_secret (some [33]) (some [104]) (some [1, 2]) (some 5) 0).output = some [1, 2]
    ∧ (encrypt_secret (some [33]) (some [104]) (some [1, 2]) (some 5) 0).output_len = some 5 := by
  have h := C5_failure_frame (some [33]) (some [104]) (some [1, 2]) (some 5) 0 (by decide)
  exact ⟨h.1, h.2 (by decide)⟩

/-- Claim C6: on a successful call, the intermediate ciphertext is exactly
the plaintext length (up to the first zero byte) plus the fixed 48-byte
overhead, and the base64 text written (as reported in `output_len`, the
`strlen` of the buffer) has exactly the base64-encoded length
`4 * ceil(len / 3)` of that ciphertext length. -/
theorem C6_length_determinism (pkb pt ob : List Nat) (cap esk : Nat) (d ct : List Nat)
    (hd : sodium_base642bin crypto_box_PUBLICKEYBYTES (cstr pkb) = some d)
    (hs : crypto_box_seal (d ++ List.replicate (crypto_box_PUBLICKEYBYTES - d.length) 0)
        (cstr pt) esk = some ct)
    (hcap : sodium_base64_ENCODED_LEN (crypto_box_SEALBYTES + (cstr pt).length) ≤ cap) :
    ct.length = (cstr pt).length + crypto_box_SEALBYTES
    ∧ (encrypt_secret (some pkb) (some pt) (some ob) (some cap) esk).output_len
        = some (4 * ((ct.length + 2) / 3)) := by
  have hctlen := crypto_box_seal_length _ _ _ _ hs
  obtain ⟨text, htext, hlen2, henc1, hnz, hsucc⟩ :=
    encrypt_secret_success pkb pt ob cap esk d ct hd hs hcap
  constructor
  · omega
  · rw [hsucc]
    simp [hlen2]

/-- Witness for C6 at the spec's test key and plaintext `hello`. -/
theorem C6_length_determinism_witness :
    ((crypto_box_seal
        ((sodium_base642bin crypto_box_PUBLICKEYBYTES (cstr tKey)).getD [] ++
          List.replicate (crypto_box_PUBLICKEYBYTES -
            ((sodium_base642bin crypto_box_PUBLICKEYBYTES (cstr tKey)).getD []).length) 0)
        (cstr [104, 101, 108, 108, 111]) 3).getD []).length
      = (cstr [104, 101, 108, 108, 111]).length + crypto_box_SEALBYTES
    ∧ (encrypt_secret (some tKey) (some [104, 101, 108, 108, 111]) (some []) (some 100) 3).output_len
        = some (4 * ((((crypto_box_seal
            ((sodium_base642bin crypto_box_PUBLICKEYBYTES (cstr tKey)).getD [] ++
              List.replicate (crypto_box_PUBLICKEYBYTES -
                ((sodium_base642bin crypto_box_PUBLICKEYBYTES (cstr tKey)).getD []).length) 0)
            (cstr [104, 101, 108, 108, 111]) 3).getD []).length + 2) / 3)) :=
  C6_length_determinism tKey [104, 101, 108, 108, 111] [] 100 3
    ((sodium_base642bin crypto_box_PUBLICKEYBYTES (cstr tKey)).getD [])
    ((crypto_box_seal
        ((sodium_base642bin crypto_box_PUBLICKEYBYTES (cstr tKey)).getD [] ++
          List.replicate (crypto_box_PUBLICKEYBYTES -
            ((sodium_base642bin crypto_box_PUBLICKEYBYTES (cstr tKey)).getD []).length) 0)
        (cstr [104, 101, 108, 108, 111]) 3).getD [])
    (by decide) (by decide) (by decide)

/-- Claim C7: the stages run in the fixed order argument-check, decode,
seal, encode; no two status codes coincide; and whichever stage fails
first determines the returned code: null arguments give -1 (independently
of everything else), a failed decode gives -2, a failed seal gives -3, an
insufficient capacity gives -4, and otherwise the call returns 0 (the
encoder cannot fail once the capacity check passed, so -5 is never
produced). -/
theorem C7_stage_order_and_codes :
    List.Pairwise (fun a b => a ≠ b) ([0, -1, -2, -3, -4, -5] : List Int)
    ∧ (∀ (pk pt o : Option (List Nat)) (l : Option Nat) (esk : Nat),
        pk = none ∨ pt = none ∨ o = none ∨ l = none →
        encrypt_secret pk pt o l esk = ⟨-1, o, l⟩)
    ∧ (∀ (pkb pt ob : List Nat) (cap esk : Nat),
        sodium_base642bin crypto_box_PUBLICKEYBYTES (cstr pkb) = none →
        encrypt_secret (some pkb) (some pt) (some ob) (some cap) esk = ⟨-2, some ob, some cap⟩)
    ∧ (∀ (pkb pt ob : List Nat) (cap esk : Nat) (d : List Nat),
        sodium_base642bin crypto_box_PUBLICKEYBYTES (cstr pkb) = some d →
        crypto_box_seal (d ++ List.replicate (crypto_box_PUBLICKEYBYTES - d.length) 0)
          (cstr pt) esk = none →
        encrypt_secret (some pkb) (some pt) (some ob) (some cap) esk = ⟨-3, some ob, some cap⟩)
    ∧ (∀ (pkb pt ob : List Nat) (cap esk : Nat) (d ct : List Nat),
        sodium_base642bin crypto_box_PUBLICKEYBYTES (cstr pkb) = some d →
        crypto_box_seal (d ++ List.replicate (crypto_box_PUBLICKEYBYTES - d.length) 0)
          (cstr pt) esk = some ct →
        cap < sodium_base64_ENCODED_LEN (crypto_box_SEALBYTES + (cstr pt).length) →
        encrypt_secret (some pkb) (some pt) (some ob) (some cap) esk =
          ⟨-4, some ob, some (sodium_base64_ENCODED_LEN (crypto_box_SEALBYTES +
            (cstr pt).length))⟩)
    ∧ (∀ (pkb pt ob : List Nat) (cap esk : Nat) (d ct : List Nat),
        sodium_base642bin crypto_box_PUBLICKEYBYTES (cstr pkb) = some d →
        crypto_box_seal (d ++ List.replicate (crypto_box_PUBLICKEYBYTES - d.length) 0)
          (cstr pt) esk = some ct →
        sodium_base64_ENCODED_LEN (crypto_box_SEALBYTES + (cstr pt).length) ≤ cap →
        (encrypt_secret (some pkb) (some pt) (some ob) (some cap) esk).ret = 0) := by
  refine ⟨by decide, encrypt_secret_null, encrypt_secret_neg2, encrypt_secret_neg3,
    encrypt_secret_neg4, ?_⟩
  intro pkb pt ob cap esk d ct hd hs hcap
  obtain ⟨text, _, _, _, _, hsucc⟩ := encrypt_secret_success pkb pt ob cap esk d ct hd hs hcap
  rw [hsucc]

/-- Witness for C7, exhibiting a concrete input for each stage outcome:
null argument (-1), invalid base64 character (-2), all-zero key rejected
by the sealing primitive (-3), zero capacity (-4), and success (0). -/
theorem C7_stage_order_and_codes_witness :
    encrypt_secret none (some []) (some []) (some 0) 0 = ⟨-1, some [], some 0⟩
    ∧ encrypt_secret (some [33]) (some []) (some []) (some 0) 0 = ⟨-2, some [], some 0⟩
    ∧ encrypt_secret (some []) (some [104]) (some []) (some 5) 1 = ⟨-3, some [], some 5⟩
    ∧ encrypt_secret (some tKeyShort) (some [120]) (some []) (some 0) 1
        = ⟨-4, some [], some (sodium_base64_ENCODED_LEN (crypto_box_SEALBYTES +
            (cstr [120]).length))⟩
    ∧ (encrypt_secret (some tKeyShort) (some [120]) (some []) (some 100) 1).ret = 0 := by
  have h := C7_stage_order_and_codes
  refine ⟨h.2.1 none (some []) (some []) (some 0) 0 (Or.inl rfl),
    h.2.2.1 [33] [] [] 0 0 (by decide),
    h.2.2.2.1 [] [104] [] 5 1 [] (by decide) (by decide),
    h.2.2.2.2.1 tKeyShort [120] [] 0 1 [102, 111, 111]
      ((crypto_box_seal ([102, 111, 111] ++
          List.replicate (crypto_box_PUBLICKEYBYTES - ([102, 111, 111] : List Nat).length) 0)
        (cstr [120]) 1).getD [])
      (by decide) (by decide) (by decide),
    h.2.2.2.2.2 tKeyShort [120] [] 100 1 [102, 111, 111]
      ((crypto_box_seal ([102, 111, 111] ++
          List.replicate (crypto_box_PUBLICKEYBYTES - ([102, 111, 111] : List Nat).length) 0)
        (cstr [120]) 1).getD [])
      (by decide) (by decide) (by decide)⟩

/-- Claim C8: on every successful call, `output_len` is overwritten with
the `strlen` of the text actually written into the buffer, and that value
is at most the capacity the caller supplied. -/
theorem C8_success_length_report (pkb pt ob : List Nat) (cap esk : Nat) (d ct : List Nat)
    (hd : sodium_base642bin crypto_box_PUBLICKEYBYTES (cstr pkb) = some d)
    (hs : crypto_box_seal (d ++ List.replicate (crypto_box_PUBLICKEYBYTES - d.length) 0)
        (cstr pt) esk = some ct)
    (hcap : sodium_base64_ENCODED_LEN (crypto_box_SEALBYTES + (cstr pt).length) ≤ cap) :
    ∃ buf2, (encrypt_secret (some pkb) (some pt) (some ob) (some cap) esk).ret = 0
      ∧ (encrypt_secret (some pkb) (some pt) (some ob) (some cap) esk).output = some buf2
      ∧ (encrypt_secret (some pkb) (some pt) (some ob) (some cap) esk).output_len
          = some (cstrLen buf2)
      ∧ cstrLen buf2 ≤ cap := by
  have hctlen := crypto_box_seal_length _ _ _ _ hs
  obtain ⟨text, htext, hlen2, henc1, hnz, hsucc⟩ :=
    encrypt_secret_success pkb pt ob cap esk d ct hd hs hcap
  have hfill : 0 < cap - text.length := by
    rw [hctlen] at henc1
    omega
  have hwr := cstrLen_written text (ob.drop cap) (cap - text.length) hfill hnz
  refine ⟨text ++ List.replicate (cap - text.length) 0 ++ ob.drop cap, by rw [hsucc],
    by rw [hsucc], ?_, ?_⟩
  · rw [hsucc, hwr]
  · rw [hwr]
    rw [hctlen] at henc1
    omega

/-- Witness for C8 at the spec's test key and plaintext `hello`. -/
theorem C8_success_length_report_witness :
    ∃ buf2, (encrypt_secret (some tKey) (some [104, 101, 108, 108, 111])
        (some []) (some 100) 3).ret = 0
      ∧ (encrypt_secret (some tKey) (some [104, 101, 108, 108, 111])
          (some []) (some 100) 3).output = some buf2
      ∧ (encrypt_secret (some tKey) (some [104, 101, 108, 108, 111])
          (some []) (some 100) 3).output_len = some (cstrLen buf2)
      ∧ cstrLen buf2 ≤ 100 :=
  C8_success_length_report tKey [104, 101, 108, 108, 111] [] 100 3
    ((sodium_base642bin crypto_box_PUBLICKEYBYTES (cstr tKey)).getD [])
    ((crypto_box_seal
        ((sodium_base642bin crypto_box_PUBLICKEYBYTES (cstr tKey)).getD [] ++
          List.replicate (crypto_box_PUBLICKEYBYTES -
            ((sodium_base642bin crypto_box_PUBLICKEYBYTES (cstr tKey)).getD []).length) 0)
        (cstr [104, 101, 108, 108, 111]) 3).getD [])
    (by decide) (by decide) (by decide)

/-- Claim C10: the required size demanded and reported by the call includes
one byte for the NUL terminator: a capacity of exactly the encoded text
length (required size minus one) still fails with `BufferTooSmall` and
reports the required size, while a capacity of the required size succeeds
and reports exactly the required size minus one. -/
theorem C10_nul_terminator_accounting (pkb pt ob : List Nat) (esk : Nat) (d ct : List Nat)
    (hd : sodium_base642bin crypto_box_PUBLICKEYBYTES (cstr pkb) = some d)
    (hs : crypto_box_seal (d ++ List.replicate (crypto_box_PUBLICKEYBYTES - d.length) 0)
        (cstr pt) esk = some ct) :
    (encrypt_secret (some pkb) (some pt) (some ob)
        (some (sodium_base64_ENCODED_LEN (crypto_box_SEALBYTES + (cstr pt).length) - 1)) esk).ret
      = -4
    ∧ (encrypt_secret (some pkb) (some pt) (some ob)
        (some (sodium_base64_ENCODED_LEN (crypto_box_SEALBYTES + (cstr pt).length) - 1))
        esk).output_len
      = some (sodium_base64_ENCODED_LEN (crypto_box_SEALBYTES + (cstr pt).length))
    ∧ (encrypt_secret (some pkb) (some pt) (some ob)
        (some (sodium_base64_ENCODED_LEN (crypto_box_SEALBYTES + (cstr pt).length))) esk).ret = 0
    ∧ (encrypt_secret (some pkb) (some pt) (some ob)
        (some (sodium_base64_ENCODED_LEN (crypto_box_SEALBYTES + (cstr pt).length)))
        esk).output_len
      = some (sodium_base64_ENCODED_LEN (crypto_box_SEALBYTES + (cstr pt).length) - 1) := by
  have hpos := sodium_base64_ENCODED_LEN_pos (crypto_box_SEALBYTES + (cstr pt).length)
  have hctlen := crypto_box_seal_length _ _ _ _ hs
  have h4 := encrypt_secret_neg4 pkb pt ob
    (sodium_base64_ENCODED_LEN (crypto_box_SEALBYTES + (cstr pt).length) - 1) esk d ct hd hs
    (by omega)
  obtain ⟨text, htext, hlen2, henc1, hnz, hsucc⟩ :=
    encrypt_secret_success pkb pt ob
      (sodium_base64_ENCODED_LEN (crypto_box_SEALBYTES + (cstr pt).length)) esk d ct hd hs
      (Nat.le_refl _)
  have htlen : text.length
      = sodium_base64_ENCODED_LEN (crypto_box_SEALBYTES + (cstr pt).length) - 1 := by
    rw [hctlen] at henc1
    omega
  refine ⟨by rw [h4], by rw [h4], by rw [hsucc], ?_⟩
  rw [hsucc]
  simp [htlen]

/-- Witness for C10 at the spec's test key and plaintext `hello`. -/
theorem C10_nul_terminator_accounting_witness :
    (encrypt_secret (some tKey) (some [104, 101, 108, 108, 111]) (some [])
        (some (sodium_base64_ENCODED_LEN (crypto_box_SEALBYTES +
          (cstr [104, 101, 108, 108, 111]).length) - 1)) 3).ret = -4
    ∧ (encrypt_secret (some tKey) (some [104, 101, 108, 108, 111]) (some [])
        (some (sodium_base64_ENCODED_LEN (crypto_box_SEALBYTES +
          (cstr [104, 101, 108, 108, 111]).length) - 1)) 3).output_len
      = some (sodium_base64_ENCODED_LEN (crypto_box_SEALBYTES +
          (cstr [104, 101, 108, 108, 111]).length))
    ∧ (encrypt_secret (some tKey) (some [104, 101, 108, 108, 111]) (some [])
        (some (sodium_base64_ENCODED_LEN (crypto_box_SEALBYTES +
          (cstr [104, 101, 108, 108, 111]).length))) 3).ret = 0
    ∧ (encrypt_secret (some tKey) (some [104, 101, 108, 108, 111]) (some [])
        (some (sodium_base64_ENCODED_LEN (crypto_box_SEALBYTES +
          (cstr [104, 101, 108, 108, 111]).length))) 3).output_len
      = some (sodium_base64_ENCODED_LEN (crypto_box_SEALBYTES +
          (cstr [104, 101, 108, 108, 111]).length) - 1) :=
  C10_nul_terminator_accounting tKey [104, 101, 108, 108, 111] [] 3
    ((sodium_base642bin crypto_box_PUBLICKEYBYTES (cstr tKey)).getD [])
    ((crypto_box_seal
        ((sodium_base642bin crypto_box_PUBLICKEYBYTES (cstr tKey)).getD [] ++
          List.replicate (crypto_box_PUBLICKEYBYTES -
            ((sodium_base642bin crypto_box_PUBLICKEYBYTES (cstr tKey)).getD []).length) 0)
        (cstr [104, 101, 108, 108, 111]) 3).getD [])
    (by decide) (by decide)
